import Mathlib

/-!
Verification of the juju leadership-lease subsystem and uniter storage
client against their specification.

The leadership engine (lease registry, claim coordinator, fencing settings
store, change notifier) is exercised by the feature tests in the repository
but its implementation is not part of the excerpt, so it is modelled here
from the specification.  The uniter `StorageAccessor` client and the
container `NewStorageConfig` helper are embedded directly from the source.
-/

namespace Juju

/-! ## Association-list helpers

The lease store keys records solely by `resourceID`; we model the store as
an association list with lookup / insert / erase. -/

def alookup (k : String) : List (String × α) → Option α
  | [] => none
  | (k', v) :: rest => if k' = k then some v else alookup k rest

def ainsert (k : String) (v : α) (l : List (String × α)) : List (String × α) :=
  (k, v) :: l.filter (fun p => decide (p.1 ≠ k))

def aerase (k : String) (l : List (String × α)) : List (String × α) :=
  l.filter (fun p => decide (p.1 ≠ k))

theorem alookup_cons (k : String) (p : String × α) (rest : List (String × α)) :
    alookup k (p :: rest) = if p.1 = k then some p.2 else alookup k rest := rfl

theorem aerase_cons (k : String) (p : String × α) (rest : List (String × α)) :
    aerase k (p :: rest) =
      if p.1 = k then aerase k rest else p :: aerase k rest := by
  rw [aerase, List.filter_cons]
  by_cases h : p.1 = k
  · rw [if_neg (by simp [h]), if_pos h]
    rfl
  · rw [if_pos (by simp [h]), if_neg h]
    rfl

theorem ainsert_eq (k : String) (v : α) (l : List (String × α)) :
    ainsert k v l = (k, v) :: aerase k l := rfl

theorem alookup_aerase_self (k : String) (l : List (String × α)) :
    alookup k (aerase k l) = none := by
  induction l with
  | nil => rfl
  | cons p rest ih =>
    rw [aerase_cons]
    by_cases h : p.1 = k
    · rw [if_pos h]
      exact ih
    · rw [if_neg h, alookup_cons, if_neg h]
      exact ih

theorem alookup_aerase_ne (k k' : String) (l : List (String × α))
    (h : k ≠ k') : alookup k (aerase k' l) = alookup k l := by
  induction l with
  | nil => rfl
  | cons p rest ih =>
    rw [aerase_cons]
    by_cases hp : p.1 = k'
    · have hpk : p.1 ≠ k := fun hk => h (hk.symm.trans hp)
      rw [if_pos hp, alookup_cons, if_neg hpk]
      exact ih
    · rw [if_neg hp, alookup_cons, alookup_cons]
      by_cases hk : p.1 = k
      · rw [if_pos hk, if_pos hk]
      · rw [if_neg hk, if_neg hk]
        exact ih

theorem alookup_ainsert_self (k : String) (v : α) (l : List (String × α)) :
    alookup k (ainsert k v l) = some v := by
  rw [ainsert_eq, alookup_cons, if_pos rfl]

theorem alookup_ainsert_ne (k k' : String) (v : α) (l : List (String × α))
    (h : k ≠ k') : alookup k (ainsert k' v l) = alookup k l := by
  rw [ainsert_eq, alookup_cons, if_neg (fun hh : k' = k => h hh.symm)]
  exact alookup_aerase_ne k k' l h

/-! ## Lease engine state

Modelled from the spec: a lease record is
`{resourceID, holderID, token : uint64, expiry : timestamp}`; one lease
record per resource; `lastTok` remembers the highest token ever issued for
a resource so tokens are never reused; `settings` holds the per-resource
key/value mapping of the fencing settings store. -/

structure Lease where
  holder : String
  token : Nat
  expiry : Nat
deriving Repr, DecidableEq

structure RegState where
  leases : List (String × Lease)
  lastTok : List (String × Nat)
  settings : List (String × List (String × String))
deriving Repr, DecidableEq

def initState : RegState := ⟨[], [], []⟩

/-- Modelled from the spec: highest token ever issued for a resource
(0 when the resource has never been claimed). -/
def lastTokOf (st : RegState) (r : String) : Nat :=
  (alookup r st.lastTok).getD 0

/-- Modelled from the spec: "a lease is valid iff now < expiry; an expired
lease is logically equivalent to unclaimed even if the store record has
not yet been reaped". -/
def validLease (st : RegState) (r : String) (now : Nat) : Option Lease :=
  match alookup r st.leases with
  | some l => if now < l.expiry then some l else none
  | none => none

inductive ClaimResult
  | ok (token expiry : Nat)
  | alreadyClaimed
deriving Repr, DecidableEq

/-- Modelled from the spec: `Claim(resourceID, holderID, duration)`.
If no valid lease exists, atomically creates one with a freshly
incremented token and `expiry = now + duration`.  If a valid lease exists
for a different holder, fails with `AlreadyClaimed`.  If a valid lease
exists for the same holder, it is a renewal: extends `expiry = now +
duration`, same token, always succeeds. -/
def claim (st : RegState) (r h : String) (d now : Nat) :
    ClaimResult × RegState :=
  match validLease st r now with
  | some l =>
    if l.holder = h then
      (.ok l.token (now + d),
       { st with leases := ainsert r { l with expiry := now + d } st.leases })
    else
      (.alreadyClaimed, st)
  | none =>
    let tk := lastTokOf st r + 1
    (.ok tk (now + d),
     { st with
        leases := ainsert r ⟨h, tk, now + d⟩ st.leases,
        lastTok := ainsert r tk st.lastTok })

/-- Modelled from the spec: `Release(resourceID, holderID)` transitions the
resource to unclaimed when `holderID` is the current valid holder;
releasing a non-held or already-unclaimed lease is a no-op success. -/
def release (st : RegState) (r h : String) (now : Nat) : RegState :=
  match validLease st r now with
  | some l =>
    if l.holder = h then { st with leases := aerase r st.leases } else st
  | none => st

/-- Modelled from the spec: `Read(resourceID)` returns the current merged
map; an absent resource returns an empty map, never an error. -/
def readSettings (st : RegState) (r : String) : List (String × String) :=
  (alookup r st.settings).getD []

/-- Modelled from the spec: the settings merge applies the delta key-by-key
onto the existing map: a key present in the delta with an empty string
value is deleted from the map; any other key is inserted/overwritten. -/
def applyDelta (m delta : List (String × String)) : List (String × String) :=
  delta.foldl (fun acc kv =>
    if kv.2 = "" then aerase kv.1 acc else ainsert kv.1 kv.2 acc) m

inductive MergeResult
  | ok
  | notLeader
deriving Repr, DecidableEq

/-- Modelled from the spec: `Merge(resourceID, holderID, delta)` validates
that `holderID` currently holds a valid lease on `resourceID`; if not,
fails with `NotLeader` and the stored map is unchanged. -/
def mergeSettings (st : RegState) (r h : String)
    (delta : List (String × String)) (now : Nat) : MergeResult × RegState :=
  match validLease st r now with
  | some l =>
    if l.holder = h then
      (.ok,
       { st with
          settings := ainsert r (applyDelta (readSettings st r) delta) st.settings })
    else
      (.notLeader, st)
  | none => (.notLeader, st)

/-! ## Operation traces

The facade operations, as a step relation on the registry state.  Each
operation records the event a client (or watcher) observes. -/

inductive Op where
  | claimOp (r h : String) (d now : Nat)
  | releaseOp (r h : String) (now : Nat)
  | mergeOp (r h : String) (delta : List (String × String)) (now : Nat)
deriving Repr, DecidableEq

inductive Event where
  | claimOk (r h : String) (token expiry : Nat) (renewal : Bool)
  | claimFail (r h : String)
  | releaseOk (r h : String)
  | mergeOk (r h : String) (newMap : List (String × String))
  | mergeFail (r h : String)
deriving Repr, DecidableEq

/-- A claim is a renewal when the caller already holds the valid lease. -/
def isRenewal (st : RegState) (r h : String) (now : Nat) : Bool :=
  match validLease st r now with
  | some l => l.holder == h
  | none => false

def step (st : RegState) : Op → RegState × Event
  | .claimOp r h d now =>
    match claim st r h d now with
    | (.ok tk e, st') => (st', .claimOk r h tk e (isRenewal st r h now))
    | (.alreadyClaimed, st') => (st', .claimFail r h)
  | .releaseOp r h now => (release st r h now, .releaseOk r h)
  | .mergeOp r h delta now =>
    match mergeSettings st r h delta now with
    | (.ok, st') => (st', .mergeOk r h (readSettings st' r))
    | (.notLeader, st') => (st', .mergeFail r h)

def run (st : RegState) : List Op → RegState × List Event
  | [] => (st, [])
  | op :: ops =>
    let s1 := step st op
    let s2 := run s1.1 ops
    (s2.1, s1.2 :: s2.2)

/-- States reachable from the initial (empty) registry. -/
inductive Reach : RegState → Prop where
  | init : Reach initState
  | next (st : RegState) (op : Op) : Reach st → Reach (step st op).1

/-! ## Case equations for the operations -/

theorem claim_renewal (st : RegState) (r h : String) (d now : Nat)
    (l : Lease) (hv : validLease st r now = some l) (hh : l.holder = h) :
    claim st r h d now =
      (.ok l.token (now + d),
       { st with leases := ainsert r { l with expiry := now + d } st.leases }) := by
  unfold claim
  rw [hv]
  simp [hh]

theorem claim_other (st : RegState) (r h : String) (d now : Nat)
    (l : Lease) (hv : validLease st r now = some l) (hh : l.holder ≠ h) :
    claim st r h d now = (.alreadyClaimed, st) := by
  unfold claim
  rw [hv]
  simp [hh]

theorem claim_fresh (st : RegState) (r h : String) (d now : Nat)
    (hv : validLease st r now = none) :
    claim st r h d now =
      (.ok (lastTokOf st r + 1) (now + d),
       { st with
          leases := ainsert r ⟨h, lastTokOf st r + 1, now + d⟩ st.leases,
          lastTok := ainsert r (lastTokOf st r + 1) st.lastTok }) := by
  unfold claim
  rw [hv]

/-! ## At most one lease record per resource -/

theorem mem_aerase_ne (k : String) (p : String × α) (l : List (String × α))
    (h : p ∈ aerase k l) : p.1 ≠ k := by
  have := List.of_mem_filter h
  simpa using this

theorem keysNodup_aerase (k : String) (l : List (String × α))
    (h : (l.map Prod.fst).Nodup) : ((aerase k l).map Prod.fst).Nodup :=
  ((List.filter_sublist l).map Prod.fst).nodup h

theorem keysNodup_ainsert (k : String) (v : α) (l : List (String × α))
    (h : (l.map Prod.fst).Nodup) : ((ainsert k v l).map Prod.fst).Nodup := by
  rw [ainsert_eq, List.map_cons]
  refine List.nodup_cons.mpr ⟨?_, keysNodup_aerase k l h⟩
  intro hk
  rcases List.mem_map.mp hk with ⟨p, hp, hpk⟩
  exact mem_aerase_ne k p l hp hpk

theorem release_holder (st : RegState) (r h : String) (now : Nat)
    (l : Lease) (hv : validLease st r now = some l) (hh : l.holder = h) :
    release st r h now = { st with leases := aerase r st.leases } := by
  unfold release
  rw [hv]
  simp [hh]

theorem release_other (st : RegState) (r h : String) (now : Nat)
    (l : Lease) (hv : validLease st r now = some l) (hh : l.holder ≠ h) :
    release st r h now = st := by
  unfold release
  rw [hv]
  simp [hh]

theorem release_none (st : RegState) (r h : String) (now : Nat)
    (hv : validLease st r now = none) : release st r h now = st := by
  unfold release
  rw [hv]

theorem merge_ok (st : RegState) (r h : String)
    (delta : List (String × String)) (now : Nat)
    (l : Lease) (hv : validLease st r now = some l) (hh : l.holder = h) :
    mergeSettings st r h delta now =
      (.ok,
       { st with
          settings := ainsert r (applyDelta (readSettings st r) delta) st.settings }) := by
  unfold mergeSettings
  rw [hv]
  simp [hh]

theorem merge_notLeader_other (st : RegState) (r h : String)
    (delta : List (String × String)) (now : Nat)
    (l : Lease) (hv : validLease st r now = some l) (hh : l.holder ≠ h) :
    mergeSettings st r h delta now = (.notLeader, st) := by
  unfold mergeSettings
  rw [hv]
  simp [hh]

theorem merge_notLeader_none (st : RegState) (r h : String)
    (delta : List (String × String)) (now : Nat)
    (hv : validLease st r now = none) :
    mergeSettings st r h delta now = (.notLeader, st) := by
  unfold mergeSettings
  rw [hv]

/-! ## Step equations -/

theorem step_claim_renewal (st : RegState) (r h : String) (d now : Nat)
    (l : Lease) (hv : validLease st r now = some l) (hh : l.holder = h) :
    step st (.claimOp r h d now) =
      ({ st with leases := ainsert r { l with expiry := now + d } st.leases },
       .claimOk r h l.token (now + d) true) := by
  simp only [step]
  rw [claim_renewal st r h d now l hv hh]
  simp [isRenewal, hv, hh]

theorem step_claim_other (st : RegState) (r h : String) (d now : Nat)
    (l : Lease) (hv : validLease st r now = some l) (hh : l.holder ≠ h) :
    step st (.claimOp r h d now) = (st, .claimFail r h) := by
  simp only [step]
  rw [claim_other st r h d now l hv hh]

theorem step_claim_fresh (st : RegState) (r h : String) (d now : Nat)
    (hv : validLease st r now = none) :
    step st (.claimOp r h d now) =
      ({ st with
          leases := ainsert r ⟨h, lastTokOf st r + 1, now + d⟩ st.leases,
          lastTok := ainsert r (lastTokOf st r + 1) st.lastTok },
       .claimOk r h (lastTokOf st r + 1) (now + d) false) := by
  simp only [step]
  rw [claim_fresh st r h d now hv]
  simp [isRenewal, hv]

theorem step_release (st : RegState) (r h : String) (now : Nat) :
    step st (.releaseOp r h now) = (release st r h now, .releaseOk r h) := rfl

theorem step_merge_ok (st : RegState) (r h : String)
    (delta : List (String × String)) (now : Nat)
    (l : Lease) (hv : validLease st r now = some l) (hh : l.holder = h) :
    step st (.mergeOp r h delta now) =
      ({ st with
          settings := ainsert r (applyDelta (readSettings st r) delta) st.settings },
       .mergeOk r h (applyDelta (readSettings st r) delta)) := by
  simp only [step]
  rw [merge_ok st r h delta now l hv hh]
  simp [readSettings, alookup_ainsert_self]

theorem step_merge_fail_other (st : RegState) (r h : String)
    (delta : List (String × String)) (now : Nat)
    (l : Lease) (hv : validLease st r now = some l) (hh : l.holder ≠ h) :
    step st (.mergeOp r h delta now) = (st, .mergeFail r h) := by
  simp only [step]
  rw [merge_notLeader_other st r h delta now l hv hh]

theorem step_merge_fail_none (st : RegState) (r h : String)
    (delta : List (String × String)) (now : Nat)
    (hv : validLease st r now = none) :
    step st (.mergeOp r h delta now) = (st, .mergeFail r h) := by
  simp only [step]
  rw [merge_notLeader_none st r h delta now hv]

/-- Every reachable registry state has at most one lease record per
resource identifier. -/
theorem reach_keysNodup (st : RegState) (hre : Reach st) :
    (st.leases.map Prod.fst).Nodup := by
  induction hre with
  | init => simp [initState]
  | next st op _ ih =>
    cases op with
    | claimOp r h d now =>
      cases hv : validLease st r now with
      | some l =>
        by_cases hh : l.holder = h
        · rw [step_claim_renewal st r h d now l hv hh]
          exact keysNodup_ainsert r _ st.leases ih
        · rw [step_claim_other st r h d now l hv hh]
          exact ih
      | none =>
        rw [step_claim_fresh st r h d now hv]
        exact keysNodup_ainsert r _ st.leases ih
    | releaseOp r h now =>
      rw [step_release]
      cases hv : validLease st r now with
      | some l =>
        by_cases hh : l.holder = h
        · rw [release_holder st r h now l hv hh]
          exact keysNodup_aerase r st.leases ih
        · rw [release_other st r h now l hv hh]
          exact ih
      | none =>
        rw [release_none st r h now hv]
        exact ih
    | mergeOp r h delta now =>
      cases hv : validLease st r now with
      | some l =>
        by_cases hh : l.holder = h
        · rw [step_merge_ok st r h delta now l hv hh]
          exact ih
        · rw [step_merge_fail_other st r h delta now l hv hh]
          exact ih
      | none =>
        rw [step_merge_fail_none st r h delta now hv]
        exact ih

theorem validLease_lookup (st : RegState) (r : String) (now : Nat)
    (l : Lease) (hv : validLease st r now = some l) :
    alookup r st.leases = some l ∧ now < l.expiry := by
  unfold validLease at hv
  split at hv
  · rename_i l' hlk
    split at hv
    · rename_i hex
      injection hv with hv
      subst hv
      exact ⟨hlk, hex⟩
    · exact absurd hv (by simp)
  · exact absurd hv (by simp)

/-- C1: Mutual exclusion of leadership.  After `Claim(r,h1,d)` succeeds
with expiry `e`, any claim by a different holder `h2` made while the lease
is still valid (`now' < e`, lease not released) fails with
`AlreadyClaimed` and leaves the state unchanged; moreover at most one
lease record exists per resource identifier (no duplicate keys) in the
resulting state. -/
theorem claim_mutual_exclusion (st : RegState) (hre : Reach st)
    (r h1 h2 : String) (d d' now now' tk e : Nat) (st' : RegState)
    (hc : claim st r h1 d now = (.ok tk e, st'))
    (hne : h2 ≠ h1) (hvv : now' < e) :
    claim st' r h2 d' now' = (.alreadyClaimed, st') ∧
    (st'.leases.map Prod.fst).Nodup := by
  cases hvl : validLease st r now with
  | some l =>
    by_cases hh : l.holder = h1
    · rw [claim_renewal st r h1 d now l hvl hh] at hc
      injection hc with hres hst
      injection hres with htk he
      subst htk he hst
      have hv2 : validLease
          { st with leases := ainsert r { l with expiry := now + d } st.leases }
          r now' = some { l with expiry := now + d } := by
        simp [validLease, alookup_ainsert_self, hvv]
      refine ⟨claim_other _ r h2 d' now' _ hv2 ?_, ?_⟩
      · exact fun hc2 => hne ((hh.symm.trans hc2).symm)
      · exact keysNodup_ainsert r _ st.leases (reach_keysNodup st hre)
    · rw [claim_other st r h1 d now l hvl hh] at hc
      injection hc with hres hst
      injection hres
  | none =>
    rw [claim_fresh st r h1 d now hvl] at hc
    injection hc with hres hst
    injection hres with htk he
    subst htk he hst
    have hv2 : validLease
        { st with
           leases := ainsert r ⟨h1, lastTokOf st r + 1, now + d⟩ st.leases,
           lastTok := ainsert r (lastTokOf st r + 1) st.lastTok }
        r now' = some ⟨h1, lastTokOf st r + 1, now + d⟩ := by
      simp [validLease, alookup_ainsert_self, hvv]
    refine ⟨claim_other _ r h2 d' now' _ hv2 ?_, ?_⟩
    · exact fun hc2 => hne hc2.symm
    · exact keysNodup_ainsert r _ st.leases (reach_keysNodup st hre)

/-- Witness for C1 at a concrete input: `u1` claims resource `s` for 10
ticks at time 0; at time 5 a claim by `u2` fails `AlreadyClaimed`. -/
theorem claim_mutual_exclusion_witness :
    claim ⟨[("s", ⟨"u1", 1, 10⟩)], [("s", 1)], []⟩ "s" "u2" 5 5 =
      (.alreadyClaimed, ⟨[("s", ⟨"u1", 1, 10⟩)], [("s", 1)], []⟩) ∧
    (((⟨[("s", ⟨"u1", 1, 10⟩)], [("s", 1)], []⟩ : RegState)).leases.map
      Prod.fst).Nodup :=
  claim_mutual_exclusion initState Reach.init "s" "u1" "u2" 10 5 0 5 1 10
    ⟨[("s", ⟨"u1", 1, 10⟩)], [("s", 1)], []⟩ (by decide) (by decide) (by decide)

/-! ## Fencing-token monotonicity -/

/-- The `(token, isRenewal)` pairs of the successful claims on resource
`r`, in the order the events occurred. -/
def tokenEvents (evs : List Event) (r : String) : List (Nat × Bool) :=
  evs.filterMap (fun e =>
    match e with
    | .claimOk r' _ tk _ rnw => if r' = r then some (tk, rnw) else none
    | _ => none)

/-- Ordering between two observed claim results: tokens never decrease,
and a later fresh (non-renewal) claim has a strictly greater token. -/
def TokOrd (a b : Nat × Bool) : Prop :=
  a.1 ≤ b.1 ∧ (b.2 = false → a.1 < b.1)

/-- The current lease's token (when there is a lease record) is exactly
the highest token ever issued for that resource. -/
def tokInv (st : RegState) (r : String) : Prop :=
  ∀ l, alookup r st.leases = some l → l.token = lastTokOf st r

theorem tokenEvents_claimOk_eq (r h : String) (tk e : Nat) (b : Bool)
    (evs : List Event) :
    tokenEvents (.claimOk r h tk e b :: evs) r = (tk, b) :: tokenEvents evs r := by
  simp [tokenEvents]

theorem tokenEvents_claimOk_ne (r' r h : String) (tk e : Nat) (b : Bool)
    (evs : List Event) (hne : r' ≠ r) :
    tokenEvents (.claimOk r' h tk e b :: evs) r = tokenEvents evs r := by
  simp [tokenEvents, hne]

theorem tokenEvents_claimFail (r' r h : String) (evs : List Event) :
    tokenEvents (.claimFail r' h :: evs) r = tokenEvents evs r := by
  simp [tokenEvents]

theorem tokenEvents_releaseOk (r' r h : String) (evs : List Event) :
    tokenEvents (.releaseOk r' h :: evs) r = tokenEvents evs r := by
  simp [tokenEvents]

theorem tokenEvents_mergeOk (r' r h : String) (m : List (String × String))
    (evs : List Event) :
    tokenEvents (.mergeOk r' h m :: evs) r = tokenEvents evs r := by
  simp [tokenEvents]

theorem tokenEvents_mergeFail (r' r h : String) (evs : List Event) :
    tokenEvents (.mergeFail r' h :: evs) r = tokenEvents evs r := by
  simp [tokenEvents]

theorem run_cons (st : RegState) (op : Op) (ops : List Op) :
    run st (op :: ops) =
      ((run (step st op).1 ops).1, (step st op).2 :: (run (step st op).1 ops).2) := rfl

theorem lastTokOf_ainsert_self (st : RegState) (r : String) (tk : Nat)
    (leases' : List (String × Lease)) :
    lastTokOf { st with leases := leases', lastTok := ainsert r tk st.lastTok } r = tk := by
  simp [lastTokOf, alookup_ainsert_self]

theorem lastTokOf_ainsert_ne (st : RegState) (r r' : String) (tk : Nat)
    (leases' : List (String × Lease)) (hne : r ≠ r') :
    lastTokOf { st with leases := leases', lastTok := ainsert r' tk st.lastTok } r =
      lastTokOf st r := by
  simp [lastTokOf, alookup_ainsert_ne r r' tk st.lastTok hne]

theorem lastTokOf_leases (st : RegState) (r : String)
    (leases' : List (String × Lease)) :
    lastTokOf { st with leases := leases' } r = lastTokOf st r := rfl

theorem lastTokOf_settings (st : RegState) (r : String)
    (settings' : List (String × List (String × String))) :
    lastTokOf { st with settings := settings' } r = lastTokOf st r := rfl

theorem tok_step_skip (stP st1 : RegState) (r : String) (ops : List Op)
    (ev : Event)
    (hEq : lastTokOf st1 r = lastTokOf stP r)
    (hEv : tokenEvents (ev :: (run st1 ops).2) r = tokenEvents (run st1 ops).2 r)
    (hC : tokInv (run st1 ops).1 r ∧
      lastTokOf st1 r ≤ lastTokOf (run st1 ops).1 r ∧
      (∀ q ∈ tokenEvents (run st1 ops).2 r,
        lastTokOf st1 r ≤ q.1 ∧ (q.2 = false → lastTokOf st1 r < q.1)) ∧
      List.Pairwise TokOrd (tokenEvents (run st1 ops).2 r)) :
    tokInv (run st1 ops).1 r ∧
    lastTokOf stP r ≤ lastTokOf (run st1 ops).1 r ∧
    (∀ q ∈ tokenEvents (ev :: (run st1 ops).2) r,
      lastTokOf stP r ≤ q.1 ∧ (q.2 = false → lastTokOf stP r < q.1)) ∧
    List.Pairwise TokOrd (tokenEvents (ev :: (run st1 ops).2) r) := by
  obtain ⟨c1, c2, c3, c4⟩ := hC
  rw [hEq] at c2 c3
  rw [hEv]
  exact ⟨c1, c2, c3, c4⟩

/-- Invariant propagation for any trace: the current-lease token matches
the issuance counter, the counter never decreases, every observed claim
token is bounded below by the starting counter (strictly when the claim
was fresh), and the observed `(token, renewal)` pairs are pairwise
`TokOrd`-ordered. -/
theorem run_tokens (ops : List Op) :
    ∀ (st : RegState) (r : String), tokInv st r →
      tokInv (run st ops).1 r ∧
      lastTokOf st r ≤ lastTokOf (run st ops).1 r ∧
      (∀ q ∈ tokenEvents (run st ops).2 r,
        lastTokOf st r ≤ q.1 ∧ (q.2 = false → lastTokOf st r < q.1)) ∧
      List.Pairwise TokOrd (tokenEvents (run st ops).2 r) := by
  induction ops with
  | nil =>
    intro st r hI
    refine ⟨hI, Nat.le_refl _, ?_, ?_⟩
    · intro q hq
      simp [run, tokenEvents] at hq
    · simp [run, tokenEvents]
  | cons op ops ih =>
    intro st r hI
    cases op with
    | claimOp r0 h d now =>
      cases hvl : validLease st r0 now with
      | some l =>
        by_cases hh : l.holder = h
        · rw [run_cons, step_claim_renewal st r0 h d now l hvl hh]
          dsimp only
          by_cases hr : r0 = r
          · subst hr
            have hlk := validLease_lookup st r0 now l hvl
            have htok : l.token = lastTokOf st r0 := hI l hlk.1
            have hI1 : tokInv
                { st with leases := ainsert r0 { l with expiry := now + d } st.leases } r0 := by
              intro l' hl'
              rw [alookup_ainsert_self] at hl'
              injection hl' with hl'
              subst hl'
              exact htok
            obtain ⟨c1, c2, c3, c4⟩ :=
              ih { st with leases := ainsert r0 { l with expiry := now + d } st.leases } r0 hI1
            rw [tokenEvents_claimOk_eq]
            refine ⟨c1, c2, ?_, ?_⟩
            · intro q hq
              rcases List.mem_cons.mp hq with hq | hq
              · subst hq
                exact ⟨Nat.le_of_eq htok.symm, fun hb => absurd hb (by simp)⟩
              · exact c3 q hq
            · refine List.Pairwise.cons ?_ c4
              intro q hq
              refine ⟨?_, ?_⟩
              · rw [htok]
                exact (c3 q hq).1
              · intro hb
                rw [htok]
                exact (c3 q hq).2 hb
          · have hrne : r ≠ r0 := fun hrr => hr hrr.symm
            have hI1 : tokInv
                { st with leases := ainsert r0 { l with expiry := now + d } st.leases } r := by
              intro l' hl'
              rw [alookup_ainsert_ne r r0 _ st.leases hrne] at hl'
              exact hI l' hl'
            exact tok_step_skip st _ r ops _ rfl
              (tokenEvents_claimOk_ne r0 r h l.token (now + d) true _ hr) (ih _ r hI1)
        · rw [run_cons, step_claim_other st r0 h d now l hvl hh]
          dsimp only
          exact tok_step_skip st st r ops _ rfl
            (tokenEvents_claimFail r0 r h _) (ih st r hI)
      | none =>
        rw [run_cons, step_claim_fresh st r0 h d now hvl]
        dsimp only
        by_cases hr : r0 = r
        · subst hr
          have hTok1 : lastTokOf
              { st with
                 leases := ainsert r0 ⟨h, lastTokOf st r0 + 1, now + d⟩ st.leases,
                 lastTok := ainsert r0 (lastTokOf st r0 + 1) st.lastTok } r0 =
              lastTokOf st r0 + 1 :=
            lastTokOf_ainsert_self st r0 (lastTokOf st r0 + 1) _
          have hI1 : tokInv
              { st with
                 leases := ainsert r0 ⟨h, lastTokOf st r0 + 1, now + d⟩ st.leases,
                 lastTok := ainsert r0 (lastTokOf st r0 + 1) st.lastTok } r0 := by
            intro l' hl'
            rw [alookup_ainsert_self] at hl'
            injection hl' with hl'
            subst hl'
            rw [hTok1]
          obtain ⟨c1, c2, c3, c4⟩ := ih
            { st with
               leases := ainsert r0 ⟨h, lastTokOf st r0 + 1, now + d⟩ st.leases,
               lastTok := ainsert r0 (lastTokOf st r0 + 1) st.lastTok } r0 hI1
          rw [hTok1] at c2 c3
          rw [tokenEvents_claimOk_eq]
          refine ⟨c1, Nat.le_trans (Nat.le_succ _) c2, ?_, ?_⟩
          · intro q hq
            rcases List.mem_cons.mp hq with hq | hq
            · subst hq
              exact ⟨Nat.le_succ _, fun _ => Nat.lt_succ_self _⟩
            · have hq1 := (c3 q hq).1
              exact ⟨Nat.le_trans (Nat.le_succ _) hq1, fun _ => Nat.lt_of_succ_le hq1⟩
          · refine List.Pairwise.cons ?_ c4
            intro q hq
            exact ⟨(c3 q hq).1, fun hb => (c3 q hq).2 hb⟩
        · have hrne : r ≠ r0 := fun hrr => hr hrr.symm
          have hEq : lastTokOf
              { st with
                 leases := ainsert r0 ⟨h, lastTokOf st r0 + 1, now + d⟩ st.leases,
                 lastTok := ainsert r0 (lastTokOf st r0 + 1) st.lastTok } r =
              lastTokOf st r :=
            lastTokOf_ainsert_ne st r r0 (lastTokOf st r0 + 1) _ hrne
          have hI1 : tokInv
              { st with
                 leases := ainsert r0 ⟨h, lastTokOf st r0 + 1, now + d⟩ st.leases,
                 lastTok := ainsert r0 (lastTokOf st r0 + 1) st.lastTok } r := by
            intro l' hl'
            rw [alookup_ainsert_ne r r0 _ st.leases hrne] at hl'
            rw [hEq]
            exact hI l' hl'
          exact tok_step_skip st _ r ops _ hEq
            (tokenEvents_claimOk_ne r0 r h _ (now + d) false _ hr) (ih _ r hI1)
    | releaseOp r0 h now =>
      rw [run_cons, step_release]
      dsimp only
      cases hvl : validLease st r0 now with
      | some l =>
        by_cases hh : l.holder = h
        · rw [release_holder st r0 h now l hvl hh]
          have hI1 : tokInv { st with leases := aerase r0 st.leases } r := by
            intro l' hl'
            by_cases hr : r0 = r
            · subst hr
              rw [alookup_aerase_self] at hl'
              exact absurd hl' (by simp)
            · rw [alookup_aerase_ne r r0 st.leases (fun hrr => hr hrr.symm)] at hl'
              exact hI l' hl'
          exact tok_step_skip st _ r ops _ rfl
            (tokenEvents_releaseOk r0 r h _) (ih _ r hI1)
        · rw [release_other st r0 h now l hvl hh]
          exact tok_step_skip st st r ops _ rfl
            (tokenEvents_releaseOk r0 r h _) (ih st r hI)
      | none =>
        rw [release_none st r0 h now hvl]
        exact tok_step_skip st st r ops _ rfl
          (tokenEvents_releaseOk r0 r h _) (ih st r hI)
    | mergeOp r0 h delta now =>
      cases hvl : validLease st r0 now with
      | some l =>
        by_cases hh : l.holder = h
        · rw [run_cons, step_merge_ok st r0 h delta now l hvl hh]
          dsimp only
          have hI1 : tokInv
              { st with
                 settings := ainsert r0 (applyDelta (readSettings st r0) delta) st.settings } r :=
            fun l' hl' => hI l' hl'
          exact tok_step_skip st _ r ops _ rfl
            (tokenEvents_mergeOk r0 r h _ _) (ih _ r hI1)
        · rw [run_cons, step_merge_fail_other st r0 h delta now l hvl hh]
          dsimp only
          exact tok_step_skip st st r ops _ rfl
            (tokenEvents_mergeFail r0 r h _) (ih st r hI)
      | none =>
        rw [run_cons, step_merge_fail_none st r0 h delta now hvl]
        dsimp only
        exact tok_step_skip st st r ops _ rfl
          (tokenEvents_mergeFail r0 r h _) (ih st r hI)

/-- C2: Fencing-token monotonicity.  Along any trace of operations from
the initial registry, the `(token, renewal)` pairs observed for a resource
`r` are pairwise ordered: tokens never decrease (so every caller observes
monotonically non-decreasing tokens), and every successful non-renewal
claim — which is exactly a claim that succeeds after release, expiry, or
on a never-claimed resource — carries a token strictly greater than every
token previously issued for `r`, so tokens are never reused across
holders.  The observed token sequence is also chainwise non-decreasing. -/
theorem token_monotonic (ops : List Op) (r : String) :
    List.Pairwise TokOrd (tokenEvents (run initState ops).2 r) ∧
    List.Chain' (fun a b : Nat × Bool => a.1 ≤ b.1)
      (tokenEvents (run initState ops).2 r) := by
  have hI : tokInv initState r := by
    intro l hl
    simp [initState, alookup] at hl
  have hP := (run_tokens ops initState r hI).2.2.2
  exact ⟨hP, (hP.imp (fun hab => hab.1)).chain'⟩

/-- C3: Idempotent renewal.  If `h` holds a valid lease `l` on `r`, then
`Claim(r,h,d)` succeeds with the unchanged token `l.token` and expiry
`now + d`; repeating the claim before that expiry succeeds again with the
same token and the refreshed expiry. -/
theorem claim_renewal_idempotent (st : RegState) (r h : String)
    (d now : Nat) (l : Lease)
    (hv : validLease st r now = some l) (hh : l.holder = h) :
    (claim st r h d now).1 = .ok l.token (now + d) ∧
    ∀ d' now', now' < now + d →
      (claim (claim st r h d now).2 r h d' now').1 = .ok l.token (now' + d') := by
  rw [claim_renewal st r h d now l hv hh]
  refine ⟨rfl, ?_⟩
  intro d' now' hlt
  dsimp only
  have hv2 : validLease
      { st with leases := ainsert r { l with expiry := now + d } st.leases }
      r now' = some { l with expiry := now + d } := by
    simp [validLease, alookup_ainsert_self, hlt]
  rw [claim_renewal _ r h d' now' _ hv2 hh]

/-- Witness for C3: with `u1` holding token 1 on `s` until time 10, a
renewal at time 3 for 10 more ticks keeps token 1 with expiry 13, and a
further renewal at time 5 still keeps token 1. -/
theorem claim_renewal_idempotent_witness :
    (claim ⟨[("s", ⟨"u1", 1, 10⟩)], [("s", 1)], []⟩ "s" "u1" 10 3).1 =
      .ok 1 13 ∧
    (claim (claim ⟨[("s", ⟨"u1", 1, 10⟩)], [("s", 1)], []⟩ "s" "u1" 10 3).2
      "s" "u1" 7 5).1 = .ok 1 12 := by
  have hth := claim_renewal_idempotent ⟨[("s", ⟨"u1", 1, 10⟩)], [("s", 1)], []⟩
    "s" "u1" 10 3 ⟨"u1", 1, 10⟩ (by decide) (by decide)
  exact ⟨hth.1, hth.2 7 5 (by decide)⟩

/-! ## Merge/Read semantics -/

/-- The effect of a merge delta on a single key: an empty-string value
deletes the key, any other value overwrites it, and a key absent from the
delta keeps its old binding. -/
def deltaApplied (old dv : Option String) : Option String :=
  match dv with
  | some v => if v = "" then none else some v
  | none => old

theorem applyDelta_cons (m : List (String × String)) (p : String × String)
    (rest : List (String × String)) :
    applyDelta m (p :: rest) =
      applyDelta (if p.2 = "" then aerase p.1 m else ainsert p.1 p.2 m) rest := rfl

theorem alookup_applyDelta_notin (delta m : List (String × String))
    (k : String) (hk : ∀ p ∈ delta, p.1 ≠ k) :
    alookup k (applyDelta m delta) = alookup k m := by
  induction delta generalizing m with
  | nil => rfl
  | cons p rest ihd =>
    rw [applyDelta_cons,
      ihd _ (fun q hq => hk q (List.mem_cons_of_mem p hq))]
    have hpk : k ≠ p.1 := fun he => hk p (List.mem_cons_self p rest) he.symm
    by_cases hp : p.2 = ""
    · rw [if_pos hp, alookup_aerase_ne k p.1 m hpk]
    · rw [if_neg hp, alookup_ainsert_ne k p.1 p.2 m hpk]

theorem alookup_applyDelta (delta m : List (String × String)) (k : String)
    (hnd : (delta.map Prod.fst).Nodup) :
    alookup k (applyDelta m delta) =
      deltaApplied (alookup k m) (alookup k delta) := by
  induction delta generalizing m with
  | nil => rfl
  | cons p rest ihd =>
    have hnd' : (rest.map Prod.fst).Nodup :=
      (List.nodup_cons.mp (by simpa using hnd)).2
    have hhead : p.1 ∉ rest.map Prod.fst :=
      (List.nodup_cons.mp (by simpa using hnd)).1
    rw [applyDelta_cons, alookup_cons]
    by_cases hk : p.1 = k
    · have hnotin : ∀ q ∈ rest, q.1 ≠ k := by
        intro q hq he
        exact hhead (by rw [hk, ← he]; exact List.mem_map_of_mem Prod.fst hq)
      rw [alookup_applyDelta_notin rest _ k hnotin, if_pos hk]
      by_cases hp : p.2 = ""
      · rw [if_pos hp]
        subst hk
        show alookup p.1 (aerase p.1 m) = if p.2 = "" then none else some p.2
        rw [alookup_aerase_self, if_pos hp]
      · rw [if_neg hp]
        subst hk
        show alookup p.1 (ainsert p.1 p.2 m) = if p.2 = "" then none else some p.2
        rw [alookup_ainsert_self, if_neg hp]
    · have hpk : k ≠ p.1 := fun he => hk he.symm
      rw [if_neg hk, ihd _ hnd']
      by_cases hp : p.2 = ""
      · rw [if_pos hp, alookup_aerase_ne k p.1 m hpk]
      · rw [if_neg hp, alookup_ainsert_ne k p.1 p.2 m hpk]

/-- C4: Merge/Read semantics.  When the current leader merges a delta
(with map-like keys, i.e. no duplicates), the merge succeeds and every
key afterwards reads as the delta dictates: an empty-string value deletes
the key, any other value overwrites it, and untouched keys are preserved.
Reading an absent resource yields the empty map.  The concrete scenario of
the feature test holds: merging `{foo ↦ bar, baz ↦ biz}` then reading
returns exactly that two-entry map, a further merge of `{foo ↦ ""}` leaves
only `{baz ↦ biz}`, and reading a never-touched resource gives `[]`. -/
theorem merge_read_semantics (st : RegState) (r h : String)
    (delta : List (String × String)) (now : Nat) (l : Lease)
    (hv : validLease st r now = some l) (hh : l.holder = h)
    (hnd : (delta.map Prod.fst).Nodup) :
    ((mergeSettings st r h delta now).1 = .ok ∧
     ∀ k, alookup k (readSettings (mergeSettings st r h delta now).2 r) =
       deltaApplied (alookup k (readSettings st r)) (alookup k delta)) ∧
    (∀ (st0 : RegState) (r0 : String),
      alookup r0 st0.settings = none → readSettings st0 r0 = []) ∧
    (alookup "foo" (readSettings
        (mergeSettings ⟨[("s", ⟨"u1", 1, 10⟩)], [("s", 1)], []⟩
          "s" "u1" [("foo", "bar"), ("baz", "biz")] 1).2 "s") = some "bar" ∧
     alookup "baz" (readSettings
        (mergeSettings ⟨[("s", ⟨"u1", 1, 10⟩)], [("s", 1)], []⟩
          "s" "u1" [("foo", "bar"), ("baz", "biz")] 1).2 "s") = some "biz" ∧
     (readSettings
        (mergeSettings ⟨[("s", ⟨"u1", 1, 10⟩)], [("s", 1)], []⟩
          "s" "u1" [("foo", "bar"), ("baz", "biz")] 1).2 "s").length = 2 ∧
     readSettings
        (mergeSettings
          (mergeSettings ⟨[("s", ⟨"u1", 1, 10⟩)], [("s", 1)], []⟩
            "s" "u1" [("foo", "bar"), ("baz", "biz")] 1).2
          "s" "u1" [("foo", "")] 2).2 "s" = [("baz", "biz")] ∧
     readSettings initState "absent" = []) := by
  refine ⟨⟨?_, ?_⟩, ?_, by decide⟩
  · rw [merge_ok st r h delta now l hv hh]
  · intro k
    rw [merge_ok st r h delta now l hv hh]
    have hread : readSettings
        { st with
           settings := ainsert r (applyDelta (readSettings st r) delta) st.settings }
        r = applyDelta (readSettings st r) delta := by
      simp [readSettings, alookup_ainsert_self]
    rw [hread]
    exact alookup_applyDelta delta (readSettings st r) k hnd
  · intro st0 r0 h0
    simp [readSettings, h0]

/-- Witness for C4: the general part applied with `u1` the valid leader of
`s` merging a two-entry delta at time 1. -/
theorem merge_read_semantics_witness :
    ((mergeSettings ⟨[("s", ⟨"u1", 1, 10⟩)], [("s", 1)], []⟩
        "s" "u1" [("a", "1"), ("b", "")] 1).1 = .ok ∧
     ∀ k, alookup k (readSettings
        (mergeSettings ⟨[("s", ⟨"u1", 1, 10⟩)], [("s", 1)], []⟩
          "s" "u1" [("a", "1"), ("b", "")] 1).2 "s") =
       deltaApplied
         (alookup k (readSettings ⟨[("s", ⟨"u1", 1, 10⟩)], [("s", 1)], []⟩ "s"))
         (alookup k [("a", "1"), ("b", "")])) ∧
    (∀ (st0 : RegState) (r0 : String),
      alookup r0 st0.settings = none → readSettings st0 r0 = []) ∧
    (alookup "foo" (readSettings
        (mergeSettings ⟨[("s", ⟨"u1", 1, 10⟩)], [("s", 1)], []⟩
          "s" "u1" [("foo", "bar"), ("baz", "biz")] 1).2 "s") = some "bar" ∧
     alookup "baz" (readSettings
        (mergeSettings ⟨[("s", ⟨"u1", 1, 10⟩)], [("s", 1)], []⟩
          "s" "u1" [("foo", "bar"), ("baz", "biz")] 1).2 "s") = some "biz" ∧
     (readSettings
        (mergeSettings ⟨[("s", ⟨"u1", 1, 10⟩)], [("s", 1)], []⟩
          "s" "u1" [("foo", "bar"), ("baz", "biz")] 1).2 "s").length = 2 ∧
     readSettings
        (mergeSettings
          (mergeSettings ⟨[("s", ⟨"u1", 1, 10⟩)], [("s", 1)], []⟩
            "s" "u1" [("foo", "bar"), ("baz", "biz")] 1).2
          "s" "u1" [("foo", "")] 2).2 "s" = [("baz", "biz")] ∧
     readSettings initState "absent" = []) :=
  merge_read_semantics ⟨[("s", ⟨"u1", 1, 10⟩)], [("s", 1)], []⟩
    "s" "u1" [("a", "1"), ("b", "")] 1 ⟨"u1", 1, 10⟩
    (by decide) (by decide) (by decide)

/-- C5: Fenced-write rejection with atomicity.  A merge by any caller who
does not currently hold a valid lease on `r` (no valid lease at all, or a
valid lease held by someone else) fails with `NotLeader`, the registry
state is exactly what it was before the call, and in particular `Read(r)`
is unchanged. -/
theorem merge_nonleader_rejected (st : RegState) (r h : String)
    (delta : List (String × String)) (now : Nat)
    (hnl : (validLease st r now).all (fun l => l.holder != h) = true) :
    mergeSettings st r h delta now = (.notLeader, st) ∧
    readSettings (mergeSettings st r h delta now).2 r = readSettings st r := by
  cases hvl : validLease st r now with
  | some l =>
    rw [hvl] at hnl
    have hne : l.holder ≠ h := by simpa using hnl
    have heq := merge_notLeader_other st r h delta now l hvl hne
    exact ⟨heq, by rw [heq]⟩
  | none =>
    have heq := merge_notLeader_none st r h delta now hvl
    exact ⟨heq, by rw [heq]⟩

/-- Witness for C5: `u2` is not the leader of `s` (the valid lease belongs
to `u1`), so its merge is rejected and the settings are untouched. -/
theorem merge_nonleader_rejected_witness :
    mergeSettings ⟨[("s", ⟨"u1", 1, 10⟩)], [("s", 1)], [("s", [("x", "y")])]⟩
        "s" "u2" [("x", "z")] 5 =
      (.notLeader, ⟨[("s", ⟨"u1", 1, 10⟩)], [("s", 1)], [("s", [("x", "y")])]⟩) ∧
    readSettings (mergeSettings
        ⟨[("s", ⟨"u1", 1, 10⟩)], [("s", 1)], [("s", [("x", "y")])]⟩
        "s" "u2" [("x", "z")] 5).2 "s" =
      readSettings ⟨[("s", ⟨"u1", 1, 10⟩)], [("s", 1)], [("s", [("x", "y")])]⟩ "s" :=
  merge_nonleader_rejected ⟨[("s", ⟨"u1", 1, 10⟩)], [("s", 1)], [("s", [("x", "y")])]⟩
    "s" "u2" [("x", "z")] 5 (by decide)

/-! ## Settings watch subscriptions -/

/-- The settings snapshots a watcher of resource `r` is sent by the
notifier while a list of events unfolds: one per successful merge on `r`. -/
def settingsEvents (evs : List Event) (r : String) :
    List (List (String × String)) :=
  evs.filterMap (fun e =>
    match e with
    | .mergeOk r' _ m => if r' = r then some m else none
    | _ => none)

/-- Modelled from the spec: a `WatchSettings(r)` subscription opened in
state `st` immediately delivers the current map as its first event, then
one event per successful merge along the subsequent operations. -/
def watchEvents (st : RegState) (r : String) (ops : List Op) :
    List (List (String × String)) :=
  readSettings st r :: settingsEvents (run st ops).2 r

theorem settingsEvents_claimOk (r' r h : String) (tk e : Nat) (b : Bool)
    (evs : List Event) :
    settingsEvents (.claimOk r' h tk e b :: evs) r = settingsEvents evs r := by
  simp [settingsEvents]

theorem settingsEvents_claimFail (r' r h : String) (evs : List Event) :
    settingsEvents (.claimFail r' h :: evs) r = settingsEvents evs r := by
  simp [settingsEvents]

theorem settingsEvents_releaseOk (r' r h : String) (evs : List Event) :
    settingsEvents (.releaseOk r' h :: evs) r = settingsEvents evs r := by
  simp [settingsEvents]

theorem settingsEvents_mergeOk_eq (r h : String) (m : List (String × String))
    (evs : List Event) :
    settingsEvents (.mergeOk r h m :: evs) r = m :: settingsEvents evs r := by
  simp [settingsEvents]

theorem settingsEvents_mergeOk_ne (r' r h : String)
    (m : List (String × String)) (evs : List Event) (hne : r' ≠ r) :
    settingsEvents (.mergeOk r' h m :: evs) r = settingsEvents evs r := by
  simp [settingsEvents, hne]

theorem settingsEvents_mergeFail (r' r h : String) (evs : List Event) :
    settingsEvents (.mergeFail r' h :: evs) r = settingsEvents evs r := by
  simp [settingsEvents]

theorem release_settings (st : RegState) (r0 h : String) (now : Nat) :
    (release st r0 h now).settings = st.settings := by
  unfold release
  split
  · split
    · rfl
    · rfl
  · rfl

/-- The watcher is coalesced to the latest value: the last snapshot it is
sent (the initial one when nothing merged) is exactly the current map of
the final state. -/
theorem watch_last (ops : List Op) :
    ∀ (st : RegState) (r : String),
      List.getLast? (readSettings st r :: settingsEvents (run st ops).2 r) =
        some (readSettings (run st ops).1 r) := by
  induction ops with
  | nil =>
    intro st r
    simp [run, settingsEvents]
  | cons op ops ih =>
    intro st r
    cases op with
    | claimOp r0 h d now =>
      cases hvl : validLease st r0 now with
      | some l =>
        by_cases hh : l.holder = h
        · rw [run_cons, step_claim_renewal st r0 h d now l hvl hh]
          dsimp only
          rw [settingsEvents_claimOk]
          exact ih
            { st with leases := ainsert r0 { l with expiry := now + d } st.leases } r
        · rw [run_cons, step_claim_other st r0 h d now l hvl hh]
          dsimp only
          rw [settingsEvents_claimFail]
          exact ih st r
      | none =>
        rw [run_cons, step_claim_fresh st r0 h d now hvl]
        dsimp only
        rw [settingsEvents_claimOk]
        exact ih
          { st with
             leases := ainsert r0 ⟨h, lastTokOf st r0 + 1, now + d⟩ st.leases,
             lastTok := ainsert r0 (lastTokOf st r0 + 1) st.lastTok } r
    | releaseOp r0 h now =>
      rw [run_cons, step_release]
      dsimp only
      rw [settingsEvents_releaseOk]
      have hrel : readSettings (release st r0 h now) r = readSettings st r := by
        unfold readSettings
        rw [release_settings]
      have hthis := ih (release st r0 h now) r
      rw [hrel] at hthis
      exact hthis
    | mergeOp r0 h delta now =>
      cases hvl : validLease st r0 now with
      | some l =>
        by_cases hh : l.holder = h
        · rw [run_cons, step_merge_ok st r0 h delta now l hvl hh]
          dsimp only
          by_cases hr : r0 = r
          · subst hr
            rw [settingsEvents_mergeOk_eq, List.getLast?_cons_cons]
            have hM : readSettings
                { st with
                   settings := ainsert r0 (applyDelta (readSettings st r0) delta)
                     st.settings } r0 =
                applyDelta (readSettings st r0) delta := by
              simp [readSettings, alookup_ainsert_self]
            have hthis := ih
              { st with
                 settings := ainsert r0 (applyDelta (readSettings st r0) delta)
                   st.settings } r0
            rw [hM] at hthis
            exact hthis
          · rw [settingsEvents_mergeOk_ne r0 r h _ _ hr]
            have hM : readSettings
                { st with
                   settings := ainsert r0 (applyDelta (readSettings st r0) delta)
                     st.settings } r = readSettings st r := by
              simp [readSettings,
                alookup_ainsert_ne r r0 _ st.settings (fun he => hr he.symm)]
            have hthis := ih
              { st with
                 settings := ainsert r0 (applyDelta (readSettings st r0) delta)
                   st.settings } r
            rw [hM] at hthis
            exact hthis
        · rw [run_cons, step_merge_fail_other st r0 h delta now l hvl hh]
          dsimp only
          rw [settingsEvents_mergeFail]
          exact ih st r
      | none =>
        rw [run_cons, step_merge_fail_none st r0 h delta now hvl]
        dsimp only
        rw [settingsEvents_mergeFail]
        exact ih st r

/-- C6: First watch event is the current state.  A `WatchSettings(r)`
subscription's first delivered value is exactly the map `Read(r)` returns
at subscription time — also when no merge ever happens (`ops = []`, where
it is the only event) — and events are coalesced to the latest value: the
last delivered snapshot equals the current map of the final state, each
intermediate event being one successful merge's result. -/
theorem watch_first_event (st : RegState) (r : String) (ops : List Op) :
    (watchEvents st r ops).head? = some (readSettings st r) ∧
    watchEvents st r [] = [readSettings st r] ∧
    (watchEvents st r ops).getLast? = some (readSettings (run st ops).1 r) :=
  ⟨rfl, rfl, watch_last ops st r⟩

/-! ## BlockUntilReleased -/

/-- A resource is unclaimed when no valid lease exists for it (an expired
lease counts as unclaimed even before the reaper runs). -/
def unclaimedAt (st : RegState) (r : String) (now : Nat) : Bool :=
  (validLease st r now).isNone

/-- Modelled from the spec: `BlockUntilReleased(resourceID)` suspends the
caller until the resource is unclaimed (by explicit release or by
expiry).  The caller samples the registry state over time; the call
returns at the first sample where the resource is unclaimed (`some i`),
immediately (`some 0`) when unclaimed at call time.  `none` means the
caller is still suspended — there is no error outcome. -/
def blockUntilReleased (r : String) : List (RegState × Nat) → Option Nat
  | [] => none
  | p :: rest =>
    if unclaimedAt p.1 r p.2 then some 0
    else (blockUntilReleased r rest).map (fun n => n + 1)

/-- C7: BlockUntilReleased semantics.  (1) When the resource is unclaimed
at call time the call returns immediately; (2) when it is claimed at call
time the caller suspends, resuming only at a later sample; (3) whenever
some sample of the trace sees the resource unclaimed, the call returns —
`some`, success, never an error; (4) an explicit release by the current
holder makes the resource unclaimed at once; (5) mere expiry of the lease
record, without any release, also makes it unclaimed.  Since the result is
a pure function of the trace, every concurrent waiter on the same resource
observes the same wake-up sample. -/
theorem blockUntilReleased_spec :
    (∀ (st : RegState) (r : String) (now : Nat)
        (trace : List (RegState × Nat)),
      unclaimedAt st r now = true →
      blockUntilReleased r ((st, now) :: trace) = some 0) ∧
    (∀ (st : RegState) (r : String) (now : Nat)
        (trace : List (RegState × Nat)),
      unclaimedAt st r now = false →
      blockUntilReleased r ((st, now) :: trace) =
        (blockUntilReleased r trace).map (fun n => n + 1)) ∧
    (∀ (r : String) (trace : List (RegState × Nat)) (p : RegState × Nat),
      p ∈ trace → unclaimedAt p.1 r p.2 = true →
      (blockUntilReleased r trace).isSome = true) ∧
    (∀ (st : RegState) (r h : String) (now : Nat) (l : Lease),
      validLease st r now = some l → l.holder = h →
      unclaimedAt (release st r h now) r now = true) ∧
    (∀ (st : RegState) (r : String) (now : Nat),
      (∀ l, alookup r st.leases = some l → l.expiry ≤ now) →
      unclaimedAt st r now = true) := by
  refine ⟨?_, ?_, ?_, ?_, ?_⟩
  · intro st r now trace hu
    show (if unclaimedAt st r now then some 0
      else (blockUntilReleased r trace).map (fun n => n + 1)) = some 0
    rw [if_pos hu]
  · intro st r now trace hu
    show (if unclaimedAt st r now then some 0
      else (blockUntilReleased r trace).map (fun n => n + 1)) =
      (blockUntilReleased r trace).map (fun n => n + 1)
    rw [if_neg (by rw [hu]; exact Bool.false_ne_true)]
  · intro r trace
    induction trace with
    | nil =>
      intro p hp hu
      exact absurd hp (List.not_mem_nil p)
    | cons q rest ihp =>
      intro p hp hu
      show (if unclaimedAt q.1 r q.2 then some 0
        else (blockUntilReleased r rest).map (fun n => n + 1)).isSome = true
      by_cases hq : unclaimedAt q.1 r q.2 = true
      · rw [if_pos hq]
        rfl
      · rw [if_neg hq]
        rcases List.mem_cons.mp hp with hp | hp
        · exact absurd (hp ▸ hu) hq
        · rcases Option.isSome_iff_exists.mp (ihp p hp hu) with ⟨n, hn⟩
          rw [hn]
          rfl
  · intro st r h now l hv hh
    rw [release_holder st r h now l hv hh]
    unfold unclaimedAt validLease
    show (match alookup r (aerase r st.leases) with
      | some l => if now < l.expiry then some l else none
      | none => none).isNone = true
    rw [alookup_aerase_self]
    rfl
  · intro st r now hexp
    unfold unclaimedAt validLease
    cases hlk : alookup r st.leases with
    | some l =>
      show (if now < l.expiry then (some l : Option Lease) else none).isNone = true
      rw [if_neg (Nat.not_lt.mpr (hexp l hlk))]
      rfl
    | none => rfl

/-- Witness for C7 at concrete inputs: with `u1` holding `s` until time
10, a waiter sampling at times 5 and 6 (still claimed) and then at 7 just
after `u1` releases returns at the third sample; a waiter on an unclaimed
resource returns immediately; expiry alone (time 12 > 10) unblocks. -/
theorem blockUntilReleased_spec_witness :
    blockUntilReleased "s" [(initState, 0)] = some 0 ∧
    blockUntilReleased "s"
      [(⟨[("s", ⟨"u1", 1, 10⟩)], [("s", 1)], []⟩, 5),
       (⟨[("s", ⟨"u1", 1, 10⟩)], [("s", 1)], []⟩, 6),
       (release ⟨[("s", ⟨"u1", 1, 10⟩)], [("s", 1)], []⟩ "s" "u1" 7, 7)] =
      some 2 ∧
    unclaimedAt (release ⟨[("s", ⟨"u1", 1, 10⟩)], [("s", 1)], []⟩ "s" "u1" 7)
      "s" 7 = true ∧
    unclaimedAt ⟨[("s", ⟨"u1", 1, 10⟩)], [("s", 1)], []⟩ "s" 12 = true := by
  refine ⟨blockUntilReleased_spec.1 initState "s" 0 [] (by decide), by decide,
    blockUntilReleased_spec.2.2.2.1 ⟨[("s", ⟨"u1", 1, 10⟩)], [("s", 1)], []⟩
      "s" "u1" 7 ⟨"u1", 1, 10⟩ (by decide) (by decide),
    blockUntilReleased_spec.2.2.2.2 ⟨[("s", ⟨"u1", 1, 10⟩)], [("s", 1)], []⟩
      "s" 12 ?_⟩
  intro l hl
  have hl2 : some (⟨"u1", 1, 10⟩ : Lease) = some l := by
    rw [← hl]
    rfl
  injection hl2 with hl2
  rw [← hl2]
  decide

/-! ## Uniter storage client (embedded from the source)

`StorageAccessor` wraps facade calls.  Each embedded operation takes the
negotiated `bestAPIVersion` where the source consults it and the response
the remote facade would produce, and returns the outcome paired with the
number of facade calls actually issued. -/

structure ApiError where
  message : String
deriving Repr, DecidableEq

structure StorageAttachment where
  storageTag : String
  unitTag : String
deriving Repr, DecidableEq

structure StorageAttachmentsResult where
  result : List StorageAttachment
  error : Option ApiError
deriving Repr, DecidableEq

structure StorageAttachmentResult where
  result : StorageAttachment
  error : Option ApiError
deriving Repr, DecidableEq

structure StringsWatchResult where
  watcherId : String
  changes : List String
  error : Option ApiError
deriving Repr, DecidableEq

structure ErrorResult where
  error : Option ApiError
deriving Repr, DecidableEq

inductive Outcome (α : Type) where
  | ok (val : α)
  | err (msg : String)
  | panicked (msg : String)
deriving Repr, DecidableEq

inductive FacadeResponse (α : Type) where
  | callError (msg : String)
  | results (rs : List α)
deriving Repr, DecidableEq

/-- Embedded from `StorageAccessor.UnitStorageAttachments`: fails with a
not-implemented error before any facade call when the negotiated version
is below 2; panics when the response does not hold exactly one result. -/
def unitStorageAttachments (bestAPIVersion : Nat)
    (resp : FacadeResponse StorageAttachmentsResult) :
    Outcome (List StorageAttachment) × Nat :=
  if bestAPIVersion < 2 then
    (.err "UnitStorageAttachments() (need V2+) not implemented", 0)
  else
    match resp with
    | .callError msg => (.err msg, 1)
    | .results [result] =>
      match result.error with
      | some e => (.err e.message, 1)
      | none => (.ok result.result, 1)
    | .results _ => (.panicked "expected 1 result", 1)

/-- Embedded from `StorageAccessor.WatchUnitStorageAttachments`: no
version gate; a malformed response is surfaced as an error value. -/
def watchUnitStorageAttachments (resp : FacadeResponse StringsWatchResult) :
    Outcome StringsWatchResult × Nat :=
  match resp with
  | .callError msg => (.err msg, 1)
  | .results [result] =>
    match result.error with
    | some e => (.err e.message, 1)
    | none => (.ok result, 1)
  | .results _ => (.err "expected 1 result", 1)

/-- Embedded from `StorageAccessor.StorageAttachment`: fails with a
not-implemented error before any facade call when the negotiated version
is below 2; panics when the response does not hold exactly one result. -/
def storageAttachment (bestAPIVersion : Nat)
    (resp : FacadeResponse StorageAttachmentResult) :
    Outcome StorageAttachment × Nat :=
  if bestAPIVersion < 2 then
    (.err "StorageAttachment() (need V2+) not implemented", 0)
  else
    match resp with
    | .callError msg => (.err msg, 1)
    | .results [result] =>
      match result.error with
      | some e => (.err e.message, 1)
      | none => (.ok result.result, 1)
    | .results _ => (.panicked "expected 1 result", 1)

/-- Embedded from `StorageAccessor.ensureDeadOrRemoveStorageAttachment`:
shared by the two public wrappers; a malformed response is surfaced as an
error value. -/
def ensureDeadOrRemoveStorageAttachment (_method : String)
    (resp : FacadeResponse ErrorResult) : Outcome Unit × Nat :=
  match resp with
  | .callError msg => (.err msg, 1)
  | .results [result] =>
    match result.error with
    | some e => (.err e.message, 1)
    | none => (.ok (), 1)
  | .results _ => (.err "expected 1 result", 1)

def EnsureStorageAttachmentDead (resp : FacadeResponse ErrorResult) :
    Outcome Unit × Nat :=
  ensureDeadOrRemoveStorageAttachment "EnsureStorageAttachmentsDead" resp

def RemoveStorageAttachment (resp : FacadeResponse ErrorResult) :
    Outcome Unit × Nat :=
  ensureDeadOrRemoveStorageAttachment "RemoveStorageAttachments" resp

/-- C8: Capability-gated operations fail fast.  When the facade's best
API version is below 2, `UnitStorageAttachments` and `StorageAttachment`
return a not-implemented error immediately: zero facade calls are issued
(no remote call, no retry), whatever the remote would have answered. -/
theorem capability_gate_fails_fast (v : Nat) (hv : v < 2)
    (respU : FacadeResponse StorageAttachmentsResult)
    (respS : FacadeResponse StorageAttachmentResult) :
    unitStorageAttachments v respU =
      (.err "UnitStorageAttachments() (need V2+) not implemented", 0) ∧
    storageAttachment v respS =
      (.err "StorageAttachment() (need V2+) not implemented", 0) := by
  unfold unitStorageAttachments storageAttachment
  rw [if_pos hv, if_pos hv]
  exact ⟨rfl, rfl⟩

/-- Witness for C8 at version 1, irrespective of the remote response. -/
theorem capability_gate_fails_fast_witness :
    unitStorageAttachments 1 (.results []) =
      (.err "UnitStorageAttachments() (need V2+) not implemented", 0) ∧
    storageAttachment 1 (.callError "boom") =
      (.err "StorageAttachment() (need V2+) not implemented", 0) :=
  capability_gate_fails_fast 1 (by decide) (.results []) (.callError "boom")

/-- C10: Inconsistent handling of malformed facade responses.  For any
response whose results list does not have length 1,
`UnitStorageAttachments` and `StorageAttachment` panic, while
`WatchUnitStorageAttachments`, `EnsureStorageAttachmentDead` and
`RemoveStorageAttachment` (via `ensureDeadOrRemoveStorageAttachment`)
return an error value instead. -/
theorem malformed_response_handling (v : Nat) (hv : 2 ≤ v)
    (rsU : List StorageAttachmentsResult)
    (rsS : List StorageAttachmentResult)
    (rsW : List StringsWatchResult) (rsE : List ErrorResult)
    (hU : rsU.length ≠ 1) (hS : rsS.length ≠ 1)
    (hW : rsW.length ≠ 1) (hE : rsE.length ≠ 1) :
    unitStorageAttachments v (.results rsU) =
      (.panicked "expected 1 result", 1) ∧
    storageAttachment v (.results rsS) =
      (.panicked "expected 1 result", 1) ∧
    watchUnitStorageAttachments (.results rsW) =
      (.err "expected 1 result", 1) ∧
    EnsureStorageAttachmentDead (.results rsE) =
      (.err "expected 1 result", 1) ∧
    RemoveStorageAttachment (.results rsE) =
      (.err "expected 1 result", 1) := by
  refine ⟨?_, ?_, ?_, ?_, ?_⟩
  · unfold unitStorageAttachments
    rw [if_neg (Nat.not_lt.mpr hv)]
    cases rsU with
    | nil => rfl
    | cons x rest =>
      cases rest with
      | nil => exact absurd rfl hU
      | cons y r2 => rfl
  · unfold storageAttachment
    rw [if_neg (Nat.not_lt.mpr hv)]
    cases rsS with
    | nil => rfl
    | cons x rest =>
      cases rest with
      | nil => exact absurd rfl hS
      | cons y r2 => rfl
  · cases rsW with
    | nil => rfl
    | cons x rest =>
      cases rest with
      | nil => exact absurd rfl hW
      | cons y r2 => rfl
  · cases rsE with
    | nil => rfl
    | cons x rest =>
      cases rest with
      | nil => exact absurd rfl hE
      | cons y r2 => rfl
  · cases rsE with
    | nil => rfl
    | cons x rest =>
      cases rest with
      | nil => exact absurd rfl hE
      | cons y r2 => rfl

/-- Witness for C10 with empty results lists at version 2. -/
theorem malformed_response_handling_witness :
    unitStorageAttachments 2 (.results []) =
      (.panicked "expected 1 result", 1) ∧
    storageAttachment 2 (.results []) =
      (.panicked "expected 1 result", 1) ∧
    watchUnitStorageAttachments (.results []) =
      (.err "expected 1 result", 1) ∧
    EnsureStorageAttachmentDead (.results []) =
      (.err "expected 1 result", 1) ∧
    RemoveStorageAttachment (.results []) =
      (.err "expected 1 result", 1) :=
  malformed_response_handling 2 (by decide) [] [] [] []
    (by decide) (by decide) (by decide) (by decide)

/-! ## Container storage configuration (embedded from the source) -/

def LoopProviderType : String := "loop"

structure VolumeParams where
  provider : String
deriving Repr, DecidableEq

structure StorageConfig where
  allowMount : Bool
deriving Repr, DecidableEq

/-- The body of `NewStorageConfig`'s loop: on each iteration `allowMount`
is overwritten with whether the current volume uses the loop provider,
and the loop breaks as soon as it becomes true. -/
def allowMountLoop : Bool → List VolumeParams → Bool
  | allowMount, [] => allowMount
  | _, v :: rest =>
    let allowMount := v.provider == LoopProviderType
    if allowMount then allowMount else allowMountLoop allowMount rest

/-- Embedded from `container.NewStorageConfig`. -/
def NewStorageConfig (volumes : List VolumeParams) : StorageConfig :=
  { allowMount := allowMountLoop false volumes }

theorem allowMountLoop_eq_any (volumes : List VolumeParams) :
    allowMountLoop false volumes =
      volumes.any (fun v => v.provider == LoopProviderType) := by
  induction volumes with
  | nil => rfl
  | cons v rest ihv =>
    cases hb : v.provider == LoopProviderType with
    | true => simp [allowMountLoop, hb]
    | false => simp [allowMountLoop, hb, ihv]

/-- C9: `NewStorageConfig(volumes)` sets `AllowMount` exactly when some
volume uses the loop provider: in particular it is false for the empty
slice and true when a loop volume is followed by further volumes (the
loop breaks instead of overwriting the flag). -/
theorem newStorageConfig_allowMount (volumes : List VolumeParams) :
    ((NewStorageConfig volumes).allowMount = true ↔
      ∃ v ∈ volumes, v.provider = LoopProviderType) ∧
    (NewStorageConfig []).allowMount = false ∧
    (NewStorageConfig [⟨LoopProviderType⟩, ⟨"ebs"⟩]).allowMount = true := by
  refine ⟨?_, rfl, by decide⟩
  unfold NewStorageConfig
  rw [allowMountLoop_eq_any]
  simp [List.any_eq_true]

end Juju
